/-
Verification of the Avro extension of the hdfs repository
(src/hdfs/ext/avro/__init__.py), as a shallow embedding in Lean 4.

Conventions used throughout this file:
  * Bytes are modelled as natural numbers, byte strings as `List Nat`.
  * Python exceptions are modelled by the inductive type `PyError`;
    fallible code returns `Except PyError _` or `Option _`.
  * The module is Python 2 code (it uses `generator.next()` and coroutine
    `send`).  Where Python truthiness matters (`if not self._schema`,
    `assert buf`, `x or default`) the embedding tests emptiness or zero
    explicitly, mirroring the truthiness of the concrete value involved.
  * `fastavro` is an external collaborator of this repository.  Every
    definition that stands for fastavro behaviour carries a doc comment
    starting with `Modelled from the spec:` and follows the container
    format contract of the specification (header, varint framing, null
    codec block framing, sync-marker delimited blocks).
-/

import Mathlib

set_option maxHeartbeats 1000000

/-- Model of the Python exceptions that the embedded code can raise.
The constructor `unsupportedTypeError` stands for the error category
named UnsupportedTypeError in the specification taxonomy; no code in the
module raises it, it exists so that statements about it can be written. -/
inductive PyError where
  | assertionError
  | nameError (name : String)
  | notImplementedError (msg : String)
  | keyError (msg : String)
  | valueError (msg : String)
  | unsupportedTypeError
  deriving DecidableEq

/-- Model of a Python value as far as `_get_type` inspects one: the
isinstance chain only ever distinguishes these categories.  The payloads
of `list` and `dict` are never inspected by the module (the elif chain
fails before any use), so they carry no data here. -/
inductive PyVal where
  | bool (b : Bool)
  | str (s : String)
  | int (n : Int)
  | long (n : Int)
  | float
  | list
  | dict
  deriving DecidableEq

/-- True exactly when the value is a Python `bool`. -/
def PyVal.isBool : PyVal → Bool
  | .bool _ => true
  | _ => false

/-- Embeds `_get_type` (source lines 42-61).  The module never imports or
defines the name `string_types`, so as soon as the second branch of the
elif chain is evaluated — that is, for every value that is not a `bool` —
Python raises `NameError`; the `int`, `long` and `float` branches and the
final `return` are unreachable.  With `allow_null` the function raises
`NotImplementedError` before inspecting the value. -/
def getType (obj : PyVal) (allowNull : Bool := false) : Except PyError String :=
  if allowNull then .error (.notImplementedError "TODO")
  else if obj.isBool then .ok "boolean"
  else .error (.nameError "string_types")

/-- Result shape of `infer_schema`: the dictionary
`{type: record, name: element, fields: [{name, type}, ...]}` with each
field reduced to its (name, type) pair. -/
structure AvroSchema where
  type : String
  name : String
  fields : List (String × String)
  deriving DecidableEq

/-- The list comprehension inside `infer_schema` (source lines 72-75):
build one `(name, type)` field per dictionary entry, in key iteration
order, propagating the first exception `_get_type` raises. -/
def inferFields : List (String × PyVal) → Except PyError (List (String × String))
  | [] => .ok []
  | kv :: rest =>
    match getType kv.2 with
    | .error e => .error e
    | .ok t =>
      match inferFields rest with
      | .error e => .error e
      | .ok fs => .ok ((kv.1, t) :: fs)

/-- Embeds `infer_schema` (source lines 63-76).  The input dictionary is
modelled as an association list in its key iteration order. -/
def infer_schema (obj : List (String × PyVal)) : Except PyError AvroSchema :=
  (inferFields obj).map
    (fun fs => { type := "record", name := "element", fields := fs })

/-- Modelled from the spec: the variable-length nonnegative integer
encoding used by the external fastavro collaborator for record counts and
byte lengths (`write_long` restricted to the nonnegative values this
module ever writes): little-endian base-128 groups, high bit set on every
group except the last. -/
def encodeVarint (n : Nat) : List Nat :=
  if _h : n < 128 then [n] else (128 + n % 128) :: encodeVarint (n / 128)
termination_by n
decreasing_by exact Nat.div_lt_self (by omega) (by omega)

/-- Modelled from the spec: decoder matching `encodeVarint`
(fastavro `read_long` on the nonnegative values this module writes).
Returns the decoded value and the unread remainder of the input. -/
def readVarint : List Nat → Option (Nat × List Nat)
  | [] => none
  | b :: bs =>
    if b < 128 then some (b, bs)
    else
      match readVarint bs with
      | none => none
      | some (m, rest) => some ((b - 128) + 128 * m, rest)

/-- Model of the `whence` argument of `seek` (`os.SEEK_SET`/`CUR`/`END`). -/
inductive Whence where
  | seekSet
  | seekCur
  | seekEnd
  deriving DecidableEq

/-- State of a `_SeekableReader` (source lines 79-125): the remaining
bytes of the wrapped forward-only reader, the configured size (the class
attribute `sync_size = 16` unless a test passes another), the retained
buffer and the `_saught` flag. -/
structure SeekableReaderState where
  stream : List Nat
  size : Nat
  buffer : Option (List Nat)
  saught : Bool
  deriving DecidableEq

/-- Embeds `_SeekableReader.__init__` (source lines 94-98) wrapping a
forward-only reader over `stream`, with the default size 16. -/
def initSeekableReader (stream : List Nat) : SeekableReaderState :=
  { stream := stream, size := 16, buffer := none, saught := false }

namespace SeekableReaderState

/-- Embeds `_SeekableReader.read` (source lines 100-119).  In the saught
branch, `assert buf` fails when the buffer is absent or empty; reading
fewer bytes than buffered returns a prefix and keeps the remainder (the
`_saught` flag is not cleared there); reading at least the buffered
length returns the buffer topped up by a forward read of the shortfall
and clears buffer and flag.  In the fresh branch the buffer is first
dropped, then the chunk just read is retained exactly when the requested
size equals the configured size. -/
def read (st : SeekableReaderState) (nbytes : Nat) :
    Except PyError (List Nat × SeekableReaderState) :=
  if st.saught then
    match st.buffer with
    | none => .error .assertionError
    | some b =>
      if b = [] then .error .assertionError
      else if nbytes < b.length then
        .ok (b.take nbytes, { st with buffer := some (b.drop nbytes) })
      else
        let missing := nbytes - b.length
        .ok (b ++ st.stream.take missing,
          { st with stream := st.stream.drop missing, buffer := none, saught := false })
  else
    let chunk := st.stream.take nbytes
    let st1 := { st with stream := st.stream.drop nbytes }
    if nbytes = st.size then .ok (chunk, { st1 with buffer := some chunk })
    else .ok (chunk, { st1 with buffer := none })

/-- Embeds `_SeekableReader.seek` (source lines 121-125): the offset must
be exactly minus the configured size, the whence must be `SEEK_CUR`, and
`assert self._buffer` demands a retained nonempty buffer; then only the
`_saught` flag is set. -/
def seek (st : SeekableReaderState) (offset : Int) (whence : Whence) :
    Except PyError SeekableReaderState :=
  if offset ≠ - (st.size : Int) then .error .assertionError
  else if whence ≠ .seekCur then .error .assertionError
  else
    match st.buffer with
    | none => .error .assertionError
    | some b =>
      if b = [] then .error .assertionError
      else .ok { st with saught := true }

end SeekableReaderState

/-- State of a true random-access byte source over the same data: the
full byte string plus a cursor.  This is the reference model the adapter
is compared against in the fidelity claim. -/
structure RandomAccessState where
  data : List Nat
  pos : Nat
  deriving DecidableEq

namespace RandomAccessState

/-- Reading `n` bytes on a genuine random-access source: the next `n` bytes from
the cursor (fewer at end of data), advancing the cursor by the number of
bytes returned. -/
def read (st : RandomAccessState) (n : Nat) : List Nat × RandomAccessState :=
  ((st.data.drop st.pos).take n,
    { st with pos := min (st.pos + n) st.data.length })

/-- Seeking back sixteen bytes on a genuine random-access source: moves the
cursor back sixteen bytes; fails when fewer than sixteen bytes precede
the cursor. -/
def seekBack (st : RandomAccessState) : Option RandomAccessState :=
  if st.pos < 16 then none else some { st with pos := st.pos - 16 }

end RandomAccessState

/-- One unit of the access pattern of the fidelity claim: a `read(16)`
optionally followed by `seek(-16, SEEK_CUR)` and then `read(m)`. -/
inductive AccessOp where
  | r16
  | r16sb (m : Nat)
  deriving DecidableEq

/-- Runs an access pattern against a `_SeekableReader`, collecting the
chunk returned by every read, and propagating any raised error. -/
def runSeekable : List AccessOp → SeekableReaderState →
    Except PyError (List (List Nat))
  | [], _ => .ok []
  | .r16 :: ops, st =>
    match st.read 16 with
    | .error e => .error e
    | .ok (c, st1) =>
      match runSeekable ops st1 with
      | .error e => .error e
      | .ok rest => .ok (c :: rest)
  | .r16sb m :: ops, st =>
    match st.read 16 with
    | .error e => .error e
    | .ok (c1, st1) =>
      match st1.seek (-(16 : Int)) .seekCur with
      | .error e => .error e
      | .ok st2 =>
        match st2.read m with
        | .error e => .error e
        | .ok (c2, st3) =>
          match runSeekable ops st3 with
          | .error e => .error e
          | .ok rest => .ok (c1 :: c2 :: rest)

/-- Runs the same access pattern against the random-access reference
source, collecting the chunk returned by every read. -/
def runRandomAccess : List AccessOp → RandomAccessState →
    Option (List (List Nat))
  | [], _ => some []
  | .r16 :: ops, st =>
    let (c, st1) := st.read 16
    (runRandomAccess ops st1).map (fun rest => c :: rest)
  | .r16sb m :: ops, st =>
    let (c1, st1) := st.read 16
    match st1.seekBack with
    | none => none
    | some st2 =>
      let (c2, st3) := st2.read m
      (runRandomAccess ops st3).map (fun rest => c1 :: c2 :: rest)

/-- Every read amount in the pattern is at most sixteen, as in the claim
(`m` in `[0,16]`). -/
def mBound : List AccessOp → Bool
  | [] => true
  | .r16 :: ops => mBound ops
  | .r16sb m :: ops => decide (m ≤ 16) && mBound ops

/-- The restriction the counterexample forces on the fidelity claim: a
unit containing a seek never immediately follows a unit
`read(16); seek; read(m)` with `m < 16`, because such a unit leaves the
adapter with a pending partially replayed buffer, and the next `read(16)`
is then served from that buffer and is not retained as a fresh candidate,
so a seek right after it violates the adapter precondition. -/
def noSeekAfterShortReplay : List AccessOp → Bool
  | [] => true
  | [_] => true
  | op1 :: op2 :: ops =>
    (match op1, op2 with
     | .r16sb m, .r16sb _ => decide (¬ m < 16)
     | _, _ => true) && noSeekAfterShortReplay (op2 :: ops)

/-- Simulation relation between the adapter and the random-access
reference source outside a partial replay: the adapter is not in the
saught state and its remaining forward stream is exactly the data from
the reference cursor on. -/
def cleanSim (sr : SeekableReaderState) (ra : RandomAccessState) : Prop :=
  sr.size = 16 ∧ sr.saught = false ∧ ra.pos ≤ ra.data.length ∧
  sr.stream = ra.data.drop ra.pos

/-- Simulation relation during a partial replay: the adapter is in the
saught state holding the nonempty unread tail `b` of a replayed
sixteen-byte chunk, and the data from the reference cursor on is `b`
followed by the adapter forward stream. -/
def residSim (sr : SeekableReaderState) (ra : RandomAccessState)
    (b : List Nat) : Prop :=
  sr.size = 16 ∧ sr.saught = true ∧ sr.buffer = some b ∧ b ≠ [] ∧
  b.length ≤ 16 ∧ ra.pos ≤ ra.data.length ∧
  ra.data.drop ra.pos = b ++ sr.stream

/-- The next unit of the pattern contains no seek. -/
def headNotSeek : List AccessOp → Prop
  | .r16sb _ :: _ => False
  | _ => True

/-- The byte sequence consumed by `read(16); seek(-16); read(n)` with
`n ≥ 16` against a fresh adapter, stopping before the final seek of the
single-step lookback claim; returns the final adapter state. -/
def replayConsumeRun (stream : List Nat) (n : Nat) :
    Except PyError SeekableReaderState := do
  let (_, s1) ← (initSeekableReader stream).read 16
  let s2 ← s1.seek (-(16 : Int)) .seekCur
  let (_, s3) ← s2.read n
  .ok s3

/-- The run `replayConsumeRun` followed by a second `seek(-16, SEEK_CUR)` with no
intervening fresh sixteen-byte forward read. -/
def replayThenSeekRun (stream : List Nat) (n : Nat) :
    Except PyError SeekableReaderState := do
  let s3 ← replayConsumeRun stream n
  s3.seek (-(16 : Int)) .seekCur

/-- Modelled from the spec: the sync-marker check of the external
fastavro block decoder — compare the sixteen bytes just read against the
sync marker stored in the header, raising `ValueError` (the
malformed-stream error of the specification taxonomy) on mismatch. -/
def skipSync (syncMarker got : List Nat) : Except PyError Unit :=
  if got = syncMarker then .ok () else .error (.valueError "expected sync marker not found")

/-- The external constant `fastavro._writer.SYNC_SIZE`: the sync marker is sixteen bytes. -/
def SYNC_SIZE : Nat := 16

/-- Modelled from the spec: the magic/version tag opening every container
file (the bytes of `Obj` followed by the version byte 1). -/
def MAGIC : List Nat := [79, 98, 106, 1]

/-- The bytes of the string `null`: the default codec name
(`self._codec = codec or null`, source line 225). -/
def nullCodecBytes : List Nat := [110, 117, 108, 108]

/-- The bytes of `dumps(None)`, that is the string `null`: what the
header carries as schema JSON when `dump_header` runs with
`self._schema = None` (source lines 275-284 after line 301). -/
def noneSchemaJson : List Nat := [110, 117, 108, 108]

/-- Modelled from the spec: a length-prefixed byte field of the header
metadata mapping (key/length/value serialization, spec section 6). -/
def encBytes (b : List Nat) : List Nat :=
  encodeVarint b.length ++ b

/-- Modelled from the spec: decoder for one length-prefixed byte field. -/
def readBytesField (bs : List Nat) : Option (List Nat × List Nat) :=
  match readVarint bs with
  | none => none
  | some (len, bs1) =>
    if len ≤ bs1.length then some (bs1.take len, bs1.drop len) else none

/-- Modelled from the spec: `fastavro._writer.write_header` (called by
`dump_header`, source lines 275-284) — magic tag, then the metadata
mapping carrying the codec name and the schema JSON, then the sixteen
byte sync marker. -/
def encodeHeader (schemaJson codecName syncMarker : List Nat) : List Nat :=
  MAGIC ++ encBytes codecName ++ encBytes schemaJson ++ syncMarker

/-- The bytes `dump_data` (source lines 286-292) emits for one block:
`write_long` of the block record count, then the null-codec block framing
of the buffered payload (its varint length followed by the payload, the
external null entry of `BLOCK_WRITERS`), then the sync marker. -/
def blockBytes (syncMarker : List Nat) (count : Nat) (payload : List Nat) : List Nat :=
  encodeVarint count ++ encodeVarint payload.length ++ payload ++ syncMarker

/-- State of an `AvroWriter` session (source lines 199-315): the schema
(`self._schema`, opaque JSON bytes), the configured flush threshold and
sync marker and codec name, the in-memory block buffer `buf` (its length
is `buf.tell()`, since the cStringIO position is reset by `truncate(0)`),
the running and per-block record counters, and the bytes written so far
to the underlying file object. -/
structure WriterState where
  schema : Option (List Nat)
  syncInterval : Nat
  syncMarker : List Nat
  codec : List Nat
  buf : List Nat
  nRecords : Nat
  nBlockRecords : Nat
  out : List Nat
  deriving DecidableEq

/-- Embeds `AvroWriter.__init__` (source lines 220-229).  Python `or`
takes the default when the argument is falsy: a missing or zero
`sync_interval` becomes `1000 * SYNC_SIZE`, a missing or empty
`sync_marker` becomes `os.urandom(SYNC_SIZE)` — the sixteen random bytes
are passed in as `entropy` —, a missing or empty codec becomes `null`. -/
def initWriter (schema : Option (List Nat)) (syncInterval : Option Nat)
    (syncMarker : Option (List Nat)) (codec : Option (List Nat))
    (entropy : List Nat) : WriterState :=
  { schema := schema
    syncInterval :=
      match syncInterval with
      | none => 1000 * SYNC_SIZE
      | some n => if n = 0 then 1000 * SYNC_SIZE else n
    syncMarker :=
      match syncMarker with
      | none => entropy
      | some m => if m = [] then entropy else m
    codec :=
      match codec with
      | none => nullCodecBytes
      | some c => if c = [] then nullCodecBytes else c
    buf := []
    nRecords := 0
    nBlockRecords := 0
    out := [] }

/-- Embeds the priming of the `_write` coroutine (source lines 294-295):
when a schema was supplied, `dump_header()` emits the header before the
first record. -/
def writerPrime (st : WriterState) : WriterState :=
  match st.schema with
  | some sj => { st with out := st.out ++ encodeHeader sj st.codec st.syncMarker }
  | none => st

/-- Embeds the `if not n_records:` block at the top of the coroutine loop
(source lines 299-304): on the first record with no schema supplied, the
code assigns `self._schema = None` (the inference is an unimplemented
TODO) and then calls `dump_header()`, which serializes the `None` schema
as the JSON `null`. -/
def writerSendPre (st : WriterState) : WriterState :=
  if st.nRecords = 0 ∧ st.schema = none then
    { st with schema := none,
              out := st.out ++ encodeHeader noneSchemaJson st.codec st.syncMarker }
  else st

variable {Rec : Type}

/-- Embeds one resumption of the `_write` coroutine with a record
(source lines 297-310): after the first-record block, `write_data`
encodes the record into the buffer — with a `None` schema the external
fastavro dispatch has no writer entry and raises (modelled from the
spec as `KeyError`) —, both counters are incremented, and when the
buffer has reached `sync_interval` bytes `dump_data()` flushes the block
and the per-block counter is reset. -/
def writerSend (enc : Rec → List Nat) (st : WriterState) (r : Rec) :
    Except PyError WriterState :=
  let st0 := writerSendPre st
  match st0.schema with
  | none => .error (.keyError "None")
  | some _ =>
    let st1 := { st0 with buf := st0.buf ++ enc r,
                          nBlockRecords := st0.nBlockRecords + 1,
                          nRecords := st0.nRecords + 1 }
    if st1.syncInterval ≤ st1.buf.length then
      .ok { st1 with
              out := st1.out ++ blockBytes st1.syncMarker st1.nBlockRecords st1.buf,
              buf := [], nBlockRecords := 0 }
    else .ok st1

/-- Embeds the `GeneratorExit` handler of the coroutine (source lines
311-315), reached when the writer is closed: when the buffer is nonempty
`dump_data()` flushes it as a final block (`truncate(0)` empties the
buffer; the per-block counter reset on line 310 is not reached), then the
underlying stream is flushed. -/
def writerClose (st : WriterState) : WriterState :=
  if st.buf = [] then st
  else { st with out := st.out ++ blockBytes st.syncMarker st.nBlockRecords st.buf,
                 buf := [] }

/-- A full writer session after priming: send every record in order, then
close. -/
def runWriter (enc : Rec → List Nat) (st : WriterState) :
    List Rec → Except PyError WriterState
  | [] => .ok (writerClose st)
  | r :: rs =>
    match writerSend enc st r with
    | .error e => .error e
    | .ok st1 => runWriter enc st1 rs

/-- The bytes an `AvroWriter` session with a supplied schema writes for a
record list: initialize, prime (header), send all records, close. -/
def writeContainer (enc : Rec → List Nat) (schemaJson : List Nat)
    (syncInterval : Nat) (syncMarker : List Nat) (records : List Rec) :
    Except PyError (List Nat) :=
  (runWriter enc
      (writerPrime
        (initWriter (some schemaJson) (some syncInterval) (some syncMarker)
          none syncMarker))
      records).map (fun st => st.out)

/-- Concatenation of the encodings of a record list: the buffer contents
after `write_data` has appended each record in order. -/
def encList (enc : Rec → List Nat) (rs : List Rec) : List Nat :=
  rs.foldr (fun r acc => enc r ++ acc) []

/-- Modelled from the spec: decode `count` consecutive records from a
block payload with the record decoder `dec` (the external fastavro
`read_data` driven `count` times), returning the records and the unread
remainder of the payload. -/
def decodeN (dec : List Nat → Option (Rec × List Nat)) :
    Nat → List Nat → Option (List Rec × List Nat)
  | 0, bs => some ([], bs)
  | k + 1, bs =>
    match dec bs with
    | none => none
    | some (r, bs1) =>
      match decodeN dec k bs1 with
      | none => none
      | some (rs, rest) => some (r :: rs, rest)

/-- Modelled from the spec: the block decoding loop of the external
fastavro reader (spec section 4.2) — until the source is exhausted, read
the record count, the null-codec payload length and the payload, decode
that many records, then read sixteen bytes and require them to equal the
sync marker.  The fuel argument only forces termination; every call in
this file passes more fuel than the length of the input. -/
def readBlocksF (dec : List Nat → Option (Rec × List Nat))
    (syncMarker : List Nat) : Nat → List Nat → Option (List Rec)
  | 0, _ => none
  | fuel + 1, bs =>
    if bs = [] then some []
    else
      match readVarint bs with
      | none => none
      | some (count, bs1) =>
        match readVarint bs1 with
        | none => none
        | some (len, bs2) =>
          if len ≤ bs2.length then
            match decodeN dec count (bs2.take len) with
            | none => none
            | some (recs, _) =>
              if (bs2.drop len).take 16 = syncMarker then
                match readBlocksF dec syncMarker fuel ((bs2.drop len).drop 16) with
                | none => none
                | some rest => some (recs ++ rest)
              else none
          else none

/-- Modelled from the spec: reading one container file back (the header
decode of the external fastavro reader followed by the block loop) —
validate the magic tag, read the codec name and the schema JSON from the
metadata, read the sixteen byte sync marker, then decode the blocks.
Returns the schema from the header together with all decoded records. -/
def readContainer (dec : List Nat → Option (Rec × List Nat)) (bs : List Nat) :
    Option (List Nat × List Rec) :=
  if bs.take 4 = MAGIC then
    match readBytesField (bs.drop 4) with
    | none => none
    | some (_, bs1) =>
      match readBytesField bs1 with
      | none => none
      | some (schemaJson, bs2) =>
        if 16 ≤ bs2.length then
          match readBlocksF dec (bs2.take 16) ((bs2.drop 16).length + 1) (bs2.drop 16) with
          | none => none
          | some recs => some (schemaJson, recs)
        else none
  else none

/-- One part-file as the `AvroReader` record generator sees it at the
fastavro interface boundary: the schema decoded from its own header and
its record sequence.  (Each part-file is decoded independently; only the
first schema is ever re-exposed.) -/
structure AvroPart (Rec : Type) where
  schema : List Nat
  records : List Rec
  deriving DecidableEq

/-- Embeds the `_reader` generator of `AvroReader.__enter__` (source
lines 164-172): walk the part-files in the supplied order; for each,
yield the header schema only when `self._schema` is still unset (it is
set by `__enter__` as soon as the first yield is consumed), then yield
every record of the part before advancing to the next part. -/
def readerGen : List (AvroPart Rec) → Bool → List (List Nat ⊕ Rec)
  | [], _ => []
  | p :: ps, schemaSet =>
    (if schemaSet then [] else [Sum.inl p.schema]) ++
      p.records.map Sum.inr ++ readerGen ps true

/-- Embeds `AvroReader.__enter__` (source lines 162-176): prime the
generator with `records.next()`, store the first yielded item as
`self._schema`, and leave the remaining items as the record stream.  An
empty generator models the `StopIteration` escape and yields `none`; a
first item that is not a schema cannot arise from `readerGen` with an
unset schema flag. -/
def avroReaderEnter (parts : List (AvroPart Rec)) :
    Option (List Nat × List (List Nat ⊕ Rec)) :=
  match readerGen parts false with
  | [] => none
  | Sum.inl s :: rest => some (s, rest)
  | Sum.inr _ :: _ => none

theorem encodeVarint_ne_nil (n : Nat) : encodeVarint n ≠ [] := by
  rw [encodeVarint]
  split <;> simp

theorem readVarint_encodeVarint (n : Nat) (rest : List Nat) :
    readVarint (encodeVarint n ++ rest) = some (n, rest) := by
  induction n using Nat.strong_induction_on with
  | _ n ih =>
    rw [encodeVarint]
    by_cases h : n < 128
    · simp [h, readVarint]
    · have hdiv : n / 128 < n := Nat.div_lt_self (by omega) (by omega)
      have hge : ¬ (128 + n % 128 < 128) := by omega
      have hmd : n % 128 + 128 * (n / 128) = n := Nat.mod_add_div n 128
      simp only [h, if_false, dif_neg, List.cons_append, readVarint, List.append_eq,
        hge, ih (n / 128) hdiv]
      simp [hmd]

theorem readVarint_length {bs rest : List Nat} {m : Nat}
    (h : readVarint bs = some (m, rest)) : rest.length < bs.length := by
  induction bs generalizing m rest with
  | nil => simp [readVarint] at h
  | cons b t ih =>
    simp only [readVarint] at h
    by_cases hb : b < 128
    · simp [hb] at h
      simp [h.2.symm]
    · simp only [hb, if_false] at h
      cases ht : readVarint t with
      | none => rw [ht] at h; simp at h
      | some p =>
        rw [ht] at h
        cases p with
        | mk m' rest' =>
          simp at h
          have := @ih rest' m' ht
          simp [← h.2]
          omega

/-! ### Schema inference (claims C6 and C7) -/

/-- C6 counterexample: on the specification sample
`[a: true, b: x, c: 5, d: 3.5]` the claimed result is a record schema
with types boolean, string, int, float; the code instead raises
`NameError`, because the name `string_types` tested by the second branch
of `_get_type` is never imported or defined. -/
theorem infer_schema_sample_raises :
    infer_schema [("a", .bool true), ("b", .str "x"), ("c", .int 5), ("d", .float)]
      = .error (.nameError "string_types") ∧
    infer_schema [("a", .bool true), ("b", .str "x"), ("c", .int 5), ("d", .float)]
      ≠ .ok { type := "record", name := "element",
              fields := [("a", "boolean"), ("b", "string"), ("c", "int"), ("d", "float")] } := by
  refine ⟨rfl, ?_⟩
  intro hc
  exact Except.noConfusion hc

/-- C6 (amended): `infer_schema` produces a record schema whose field
order equals the key iteration order of the input, but the only value
category it can map is the boolean one (to the type boolean); any record
containing a non-boolean value — textual, integral, real or nested —
makes inference raise `NameError`, because the name `string_types` in
the second `isinstance` test is undefined in the module, so no 32-bit
range distinction between int and long is ever reached. -/
theorem infer_schema_field_order_and_failure (obj : List (String × PyVal)) :
    ((∀ kv ∈ obj, kv.2.isBool = true) →
      infer_schema obj =
        .ok { type := "record", name := "element",
              fields := obj.map (fun kv => (kv.1, "boolean")) }) ∧
    ((∃ kv ∈ obj, kv.2.isBool = false) →
      infer_schema obj = .error (.nameError "string_types")) := by
  constructor
  · intro hall
    induction obj with
    | nil => rfl
    | cons kv rest ih =>
      have hkv : kv.2.isBool = true := hall kv (List.mem_cons_self kv rest)
      have hrest : ∀ kv ∈ rest, kv.2.isBool = true :=
        fun x hx => hall x (List.mem_cons_of_mem kv hx)
      have ihr := ih hrest
      simp only [infer_schema, Except.map] at ihr ⊢
      cases hfr : inferFields rest with
      | error e => rw [hfr] at ihr; simp at ihr
      | ok fs =>
        rw [hfr] at ihr
        simp at ihr
        simp [inferFields, getType, hkv, hfr, ihr]
  · intro hex
    induction obj with
    | nil => simp at hex
    | cons kv rest ih =>
      by_cases hkv : kv.2.isBool = true
      · have : ∃ x ∈ rest, x.2.isBool = false := by
          rcases hex with ⟨x, hx, hxf⟩
          rcases List.mem_cons.mp hx with h1 | h2
          · rw [h1] at hxf; rw [hkv] at hxf; cases hxf
          · exact ⟨x, h2, hxf⟩
        have ihr := ih this
        simp only [infer_schema, Except.map] at ihr ⊢
        cases hfr : inferFields rest with
        | error e =>
          rw [hfr] at ihr
          simp at ihr
          simp [inferFields, getType, hkv, hfr, ihr]
        | ok fs => rw [hfr] at ihr; simp at ihr
      · have hkv' : kv.2.isBool = false := by
          cases h : kv.2.isBool
          · rfl
          · exact absurd h hkv
        simp [infer_schema, inferFields, getType, hkv', Except.map]

/-- C6 amended witness: a concrete all-boolean record and a concrete
record with one integer field. -/
theorem infer_schema_field_order_and_failure_witness :
    infer_schema [("a", .bool true), ("b", .bool false)]
      = .ok { type := "record", name := "element",
              fields := [("a", "boolean"), ("b", "boolean")] } ∧
    infer_schema [("c", .int 5)] = .error (.nameError "string_types") :=
  ⟨(infer_schema_field_order_and_failure
      [("a", .bool true), ("b", .bool false)]).1 (by decide),
   (infer_schema_field_order_and_failure [("c", .int 5)]).2
      ⟨("c", .int 5), by decide, by decide⟩⟩

/-- C7 counterexample: a nested structure (a Python list) does make
`_get_type` fail, but with `NameError` from the undefined name
`string_types`, not with the UnsupportedTypeError of the claim. -/
theorem getType_list_not_unsupported :
    getType .list = .error (.nameError "string_types") ∧
    getType .list ≠ .error .unsupportedTypeError := by
  refine ⟨rfl, ?_⟩
  intro hc
  simp [getType, PyVal.isBool] at hc

/-- C7 (amended): every value that is not a boolean — the unsupported
nested structures (arrays, nested records) but also every textual,
integral and real primitive — makes schema inference fail, uniformly
with `NameError` on the undefined name `string_types`; no dedicated
UnsupportedTypeError exists in the code, so unsupported shapes are not
distinguished from supported non-boolean primitives. -/
theorem getType_non_boolean_raises (v : PyVal) (h : v.isBool = false) :
    getType v = .error (.nameError "string_types") ∧
    getType v ≠ .error .unsupportedTypeError := by
  refine ⟨by simp [getType, h], ?_⟩
  intro hc
  simp [getType, h] at hc

/-- C7 amended witness: the nested-record value. -/
theorem getType_non_boolean_raises_witness :
    getType .dict = .error (.nameError "string_types") ∧
    getType .dict ≠ .error .unsupportedTypeError :=
  getType_non_boolean_raises .dict rfl

/-! ### The sync-lookback adapter misuse fault (claim C9) -/

/-- C9: calling `seek(-16, SEEK_CUR)` on the adapter when no candidate
pending buffer exists (no buffer retained, or an empty one retained from
a read at end of input) fails with `AssertionError`, while corrupt data
(a sync-marker mismatch) raises the distinct `ValueError` of the block
decoder, so a caller can tell decoder misuse apart from corrupt input. -/
theorem seek_without_candidate_buffer_distinct (st : SeekableReaderState)
    (h : st.buffer = none ∨ st.buffer = some []) :
    st.seek (-(st.size : Int)) .seekCur = .error .assertionError ∧
    (∀ syncMarker got : List Nat, got ≠ syncMarker →
      skipSync syncMarker got = .error (.valueError "expected sync marker not found")) ∧
    (PyError.assertionError ≠ PyError.valueError "expected sync marker not found") := by
  refine ⟨?_, ?_, by decide⟩
  · rcases h with h | h <;> simp [SeekableReaderState.seek, h]
  · intro syncMarker got hne
    simp [skipSync, hne]

/-- C9 witness: a freshly constructed adapter has no buffer, and a
mismatching sixteen-byte chunk trips the sync check. -/
theorem seek_without_candidate_buffer_distinct_witness :
    (initSeekableReader [1, 2, 3]).seek (-((initSeekableReader [1, 2, 3]).size : Int)) .seekCur
      = .error .assertionError ∧
    skipSync (List.replicate 16 0) (List.replicate 16 1)
      = .error (.valueError "expected sync marker not found") := by
  refine ⟨(seek_without_candidate_buffer_distinct _ (Or.inl rfl)).1, ?_⟩
  exact (seek_without_candidate_buffer_distinct (initSeekableReader []) (Or.inl rfl)).2.1
    (List.replicate 16 0) (List.replicate 16 1) (by decide)

/-! ### Single-step lookback only (claim C10) -/

/-- C10: after `seek(-16, SEEK_CUR)`, the replayed read that consumes the
whole pending buffer (`n ≥ 16`, including exactly `n = 16`) clears the
pending state and does not retain the returned bytes as a new candidate
buffer; hence a second seek with no intervening fresh sixteen-byte
forward read violates the adapter precondition and fails with
`AssertionError`. -/
theorem replay_consuming_read_clears_buffer (stream : List Nat) (n : Nat)
    (hs : stream ≠ []) (hn : 16 ≤ n) :
    (∃ s3, replayConsumeRun stream n = .ok s3 ∧
      s3.buffer = none ∧ s3.saught = false) ∧
    replayThenSeekRun stream n = .error .assertionError := by
  have hchunk : stream.take 16 ≠ [] := by
    intro hc
    rcases List.take_eq_nil_iff.mp hc with h | h <;> simp_all
  have htl : (stream.take 16).length ≤ 16 := by
    simp [List.length_take]
  have hlen : ¬ n < (stream.take 16).length := by omega
  have h1 : (initSeekableReader stream).read 16 =
      .ok (stream.take 16,
        (⟨stream.drop 16, 16, some (stream.take 16), false⟩ : SeekableReaderState)) := by
    simp [initSeekableReader, SeekableReaderState.read]
  have h2 : (⟨stream.drop 16, 16, some (stream.take 16), false⟩ :
        SeekableReaderState).seek (-(16 : Int)) .seekCur =
      .ok (⟨stream.drop 16, 16, some (stream.take 16), true⟩ : SeekableReaderState) := by
    simp [SeekableReaderState.seek, hchunk]
  have h3 : (⟨stream.drop 16, 16, some (stream.take 16), true⟩ :
        SeekableReaderState).read n =
      .ok (stream.take 16 ++ (stream.drop 16).take (n - (stream.take 16).length),
        (⟨(stream.drop 16).drop (n - (stream.take 16).length), 16, none, false⟩ :
          SeekableReaderState)) := by
    simp [SeekableReaderState.read, hchunk, hlen]
    omega
  have hrun : replayConsumeRun stream n =
      .ok (⟨(stream.drop 16).drop (n - (stream.take 16).length), 16, none, false⟩ :
        SeekableReaderState) := by
    rw [replayConsumeRun, h1]
    show ((⟨stream.drop 16, 16, some (stream.take 16), false⟩ :
        SeekableReaderState).seek (-(16 : Int)) .seekCur).bind _ = _
    rw [h2]
    show ((⟨stream.drop 16, 16, some (stream.take 16), true⟩ :
        SeekableReaderState).read n).bind _ = _
    rw [h3]
    rfl
  refine ⟨⟨_, hrun, rfl, rfl⟩, ?_⟩
  rw [replayThenSeekRun, hrun]
  rfl

/-- C10 witness: one byte of input and the replay read of exactly
sixteen bytes. -/
theorem replay_consuming_read_clears_buffer_witness :
    (∃ s3, replayConsumeRun [7] 16 = .ok s3 ∧
      s3.buffer = none ∧ s3.saught = false) ∧
    replayThenSeekRun [7] 16 = .error .assertionError :=
  replay_consuming_read_clears_buffer [7] 16 (by decide) (by decide)

/-! ### Adapter fidelity (claim C2) -/

/-- A fresh sixteen-byte read outside the saught state: the chunk is the
next sixteen stream bytes and is retained as the candidate buffer. -/
theorem seekable_read_fresh16 (st : SeekableReaderState)
    (hsa : st.saught = false) (hsz : st.size = 16) :
    st.read 16 = .ok (st.stream.take 16,
      ⟨st.stream.drop 16, 16, some (st.stream.take 16), false⟩) := by
  obtain ⟨S, sz, buf, sa⟩ := st
  simp only at hsa hsz
  subst hsa hsz
  simp [SeekableReaderState.read]

/-- A replayed read of fewer bytes than buffered: a prefix of the buffer
is returned, the remainder stays pending and the saught flag stays set. -/
theorem seekable_read_replay_lt (st : SeekableReaderState) (b : List Nat)
    (m : Nat) (hsa : st.saught = true) (hb : st.buffer = some b)
    (hne : b ≠ []) (hm : m < b.length) :
    st.read m = .ok (b.take m, ⟨st.stream, st.size, some (b.drop m), true⟩) := by
  obtain ⟨S, sz, buf, sa⟩ := st
  simp only at hsa hb
  subst hsa hb
  simp [SeekableReaderState.read, hne, hm]

/-- A replayed read of at least the buffered length: the buffer topped up
by a forward read of the shortfall is returned, and the pending state is
cleared without retaining a new candidate buffer. -/
theorem seekable_read_replay_ge (st : SeekableReaderState) (b : List Nat)
    (n : Nat) (hsa : st.saught = true) (hb : st.buffer = some b)
    (hne : b ≠ []) (hn : b.length ≤ n) :
    st.read n = .ok (b ++ st.stream.take (n - b.length),
      ⟨st.stream.drop (n - b.length), st.size, none, false⟩) := by
  obtain ⟨S, sz, buf, sa⟩ := st
  simp only at hsa hb
  subst hsa hb
  simp [SeekableReaderState.read, hne, Nat.not_lt.mpr hn]

/-- A seek with a retained nonempty buffer succeeds and only sets the
saught flag. -/
theorem seekable_seek_ok (st : SeekableReaderState) (b : List Nat)
    (hb : st.buffer = some b) (hne : b ≠ []) (hsz : st.size = 16) :
    st.seek (-(16 : Int)) .seekCur = .ok ⟨st.stream, st.size, st.buffer, true⟩ := by
  obtain ⟨S, sz, buf, sa⟩ := st
  simp only at hb hsz
  subst hb hsz
  simp [SeekableReaderState.seek, hne]

/-- Unfolding of a read on the random-access reference source. -/
theorem ra_read_eq (st : RandomAccessState) (n : Nat) :
    st.read n = ((st.data.drop st.pos).take n,
      ⟨st.data, min (st.pos + n) st.data.length⟩) := rfl

/-- The simulation underlying the amended fidelity claim: over any
access pattern whose read amounts are at most sixteen, in which no
seek-containing unit immediately follows a unit whose trailing read was
short (`m < 16`), and for which the source holds enough bytes, the
adapter and the random-access reference source return identical chunk
sequences, starting from any pair of states related by the clean
simulation relation, or by the residue relation when the next unit has
no seek. -/
theorem runSeekable_matches_random_access :
    ∀ (ops : List AccessOp) (sr : SeekableReaderState) (ra : RandomAccessState),
    mBound ops = true → noSeekAfterShortReplay ops = true →
    (cleanSim sr ra ∨ ∃ b, residSim sr ra b ∧ headNotSeek ops) →
    16 * ops.length ≤ ra.data.length - ra.pos →
    ∃ outs, runSeekable ops sr = .ok outs ∧ runRandomAccess ops ra = some outs := by
  intro ops
  induction ops with
  | nil =>
    intro sr ra _ _ _ _
    exact ⟨[], rfl, rfl⟩
  | cons op ops ih =>
    intro sr ra hmb hns hsim hlen
    have havail : 16 ≤ ra.data.length - ra.pos := by
      simp [List.length_cons] at hlen
      omega
    cases op with
    | r16 =>
      have hmb' : mBound ops = true := by simpa [mBound] using hmb
      have hns' : noSeekAfterShortReplay ops = true := by
        cases ops with
        | nil => rfl
        | cons op2 ops2 =>
          simp only [noSeekAfterShortReplay, Bool.and_eq_true] at hns
          exact hns.2
      rcases hsim with ⟨hsz, hsa, hpos, hstream⟩ | ⟨b, ⟨hsz, hsa, hb, hne, hble, hpos, hdata⟩, _⟩
      · -- clean state: a fresh sixteen-byte forward read on both sides
        have h16 : ra.pos + 16 ≤ ra.data.length := by omega
        have hstep : sr.read 16 = .ok ((ra.data.drop ra.pos).take 16,
            ⟨ra.data.drop (ra.pos + 16), 16, some ((ra.data.drop ra.pos).take 16), false⟩) := by
          rw [seekable_read_fresh16 sr hsa hsz, hstream, List.drop_drop]
        have hinv1 : cleanSim
            ⟨ra.data.drop (ra.pos + 16), 16, some ((ra.data.drop ra.pos).take 16), false⟩
            ⟨ra.data, ra.pos + 16⟩ :=
          ⟨rfl, rfl, h16, rfl⟩
        have hlen1 : 16 * ops.length ≤
            (⟨ra.data, ra.pos + 16⟩ : RandomAccessState).data.length -
              (⟨ra.data, ra.pos + 16⟩ : RandomAccessState).pos := by
          simp [List.length_cons] at hlen ⊢
          omega
        obtain ⟨outs, hS, hR⟩ := ih _ _ hmb' hns' (Or.inl hinv1) hlen1
        refine ⟨(ra.data.drop ra.pos).take 16 :: outs, ?_, ?_⟩
        · simp [runSeekable, hstep, hS]
        · have hmin : min (ra.pos + 16) ra.data.length = ra.pos + 16 :=
            Nat.min_eq_left h16
          simp [runRandomAccess, ra_read_eq, hmin, hR]
      · -- residue state: the sixteen-byte read consumes the pending tail
        have hlenS : ra.data.length - ra.pos = b.length + sr.stream.length := by
          have := congrArg List.length hdata
          simp [List.length_drop, List.length_append] at this
          omega
        have h16 : ra.pos + 16 ≤ ra.data.length := by omega
        have hstep : sr.read 16 = .ok (b ++ sr.stream.take (16 - b.length),
            ⟨sr.stream.drop (16 - b.length), sr.size, none, false⟩) :=
          seekable_read_replay_ge sr b 16 hsa hb hne hble
        have hchunk : (ra.data.drop ra.pos).take 16 = b ++ sr.stream.take (16 - b.length) := by
          rw [hdata, List.take_append_eq_append_take,
            List.take_of_length_le hble]
        have hdrop : ra.data.drop (ra.pos + 16) = sr.stream.drop (16 - b.length) := by
          rw [← List.drop_drop, hdata, List.drop_append_eq_append_drop,
            List.drop_eq_nil_of_le hble, List.nil_append]
        have hinv1 : cleanSim ⟨sr.stream.drop (16 - b.length), sr.size, none, false⟩
            ⟨ra.data, ra.pos + 16⟩ := by
          refine ⟨hsz, rfl, h16, ?_⟩
          simp [hdrop]
        have hlen1 : 16 * ops.length ≤
            (⟨ra.data, ra.pos + 16⟩ : RandomAccessState).data.length -
              (⟨ra.data, ra.pos + 16⟩ : RandomAccessState).pos := by
          simp [List.length_cons] at hlen ⊢
          omega
        obtain ⟨outs, hS, hR⟩ := ih _ _ hmb' hns' (Or.inl hinv1) hlen1
        refine ⟨(b ++ sr.stream.take (16 - b.length)) :: outs, ?_, ?_⟩
        · simp [runSeekable, hstep, hS]
        · have hmin : min (ra.pos + 16) ra.data.length = ra.pos + 16 :=
            Nat.min_eq_left h16
          simp [runRandomAccess, ra_read_eq, hmin, hR, hchunk]
    | r16sb m =>
      have hm16 : m ≤ 16 := by
        simp [mBound, Bool.and_eq_true] at hmb
        exact hmb.1
      have hmb' : mBound ops = true := by
        simp [mBound, Bool.and_eq_true] at hmb
        exact hmb.2
      rcases hsim with ⟨hsz, hsa, hpos, hstream⟩ | ⟨b, _, hhead⟩
      swap
      · exact absurd hhead (by simp [headNotSeek])
      have hSlen : 16 ≤ (ra.data.drop ra.pos).length := by
        simp [List.length_drop]
        omega
      have h16 : ra.pos + 16 ≤ ra.data.length := by omega
      have hc1len : ((ra.data.drop ra.pos).take 16).length = 16 := by
        simp [List.length_take]
        omega
      have hc1ne : (ra.data.drop ra.pos).take 16 ≠ [] := by
        intro hc
        rw [hc] at hc1len
        simp at hc1len
      have hdd : (ra.data.drop ra.pos).drop 16 = ra.data.drop (ra.pos + 16) := by
        rw [List.drop_drop]
      -- step 1: the fresh sixteen-byte read
      have hstep1 : sr.read 16 = .ok ((ra.data.drop ra.pos).take 16,
          ⟨ra.data.drop (ra.pos + 16), 16, some ((ra.data.drop ra.pos).take 16), false⟩) := by
        rw [seekable_read_fresh16 sr hsa hsz, hstream, List.drop_drop]
      -- step 2: the seek back over the candidate buffer
      have hstep2 : (⟨ra.data.drop (ra.pos + 16), 16,
          some ((ra.data.drop ra.pos).take 16), false⟩ : SeekableReaderState).seek
            (-(16 : Int)) .seekCur =
          .ok ⟨ra.data.drop (ra.pos + 16), 16,
            some ((ra.data.drop ra.pos).take 16), true⟩ :=
        seekable_seek_ok _ _ rfl hc1ne rfl
      have hraMin : min (ra.pos + 16) ra.data.length = ra.pos + 16 :=
        Nat.min_eq_left h16
      have hseekBack : (⟨ra.data, ra.pos + 16⟩ : RandomAccessState).seekBack =
          some ⟨ra.data, ra.pos⟩ := by
        simp [RandomAccessState.seekBack]
      by_cases hmlt : m < 16
      · -- short replay: prefix served, remainder stays pending
        have hns' : noSeekAfterShortReplay ops = true ∧ headNotSeek ops := by
          cases ops with
          | nil => exact ⟨rfl, trivial⟩
          | cons op2 ops2 =>
            simp only [noSeekAfterShortReplay, Bool.and_eq_true] at hns
            refine ⟨hns.2, ?_⟩
            cases op2 with
            | r16 => trivial
            | r16sb k =>
              have := hns.1
              simp at this
              omega
        have hstep3 : (⟨ra.data.drop (ra.pos + 16), 16,
            some ((ra.data.drop ra.pos).take 16), true⟩ : SeekableReaderState).read m =
            .ok (((ra.data.drop ra.pos).take 16).take m,
              ⟨ra.data.drop (ra.pos + 16), 16,
                some (((ra.data.drop ra.pos).take 16).drop m), true⟩) := by
          have := seekable_read_replay_lt
            (⟨ra.data.drop (ra.pos + 16), 16,
              some ((ra.data.drop ra.pos).take 16), true⟩ : SeekableReaderState)
            ((ra.data.drop ra.pos).take 16) m rfl rfl hc1ne (by omega)
          simpa using this
        have hposm : ra.pos + m ≤ ra.data.length := by omega
        have hbne : ((ra.data.drop ra.pos).take 16).drop m ≠ [] := by
          intro hc
          have := congrArg List.length hc
          simp [List.length_drop, hc1len] at this
          omega
        have hble : (((ra.data.drop ra.pos).take 16).drop m).length ≤ 16 := by
          simp [List.length_drop, hc1len]
        have hdata1 : ra.data.drop (ra.pos + m) =
            ((ra.data.drop ra.pos).take 16).drop m ++ ra.data.drop (ra.pos + 16) := by
          rw [← hdd, ← List.drop_drop]
          conv_lhs => rw [← List.take_append_drop 16 (ra.data.drop ra.pos)]
          rw [List.drop_append_of_le_length (by omega)]
        have hinv1 : residSim
            ⟨ra.data.drop (ra.pos + 16), 16,
              some (((ra.data.drop ra.pos).take 16).drop m), true⟩
            ⟨ra.data, ra.pos + m⟩
            (((ra.data.drop ra.pos).take 16).drop m) := by
          exact ⟨rfl, rfl, rfl, hbne, hble, hposm, hdata1⟩
        have hlen1 : 16 * ops.length ≤
            (⟨ra.data, ra.pos + m⟩ : RandomAccessState).data.length -
              (⟨ra.data, ra.pos + m⟩ : RandomAccessState).pos := by
          simp [List.length_cons] at hlen ⊢
          omega
        obtain ⟨outs, hS, hR⟩ := ih _ _ hmb' hns'.1 (Or.inr ⟨_, hinv1, hns'.2⟩) hlen1
        have heqm : ((ra.data.drop ra.pos).take 16).take m =
            (ra.data.drop ra.pos).take m := by
          rw [List.take_take]
          exact congrArg (fun k => (ra.data.drop ra.pos).take k)
            (Nat.min_eq_left (Nat.le_of_lt hmlt))
        refine ⟨(ra.data.drop ra.pos).take 16 ::
          ((ra.data.drop ra.pos).take 16).take m :: outs, ?_, ?_⟩
        · simp [runSeekable, hstep1, hstep2, hstep3, hS]
        · have hminm : min (ra.pos + m) ra.data.length = ra.pos + m :=
            Nat.min_eq_left hposm
          simp [runRandomAccess, ra_read_eq, hraMin, hseekBack, hminm, hR, heqm]
      · -- full replay: the buffer is consumed, both sides return it whole
        have hmeq : m = 16 := by omega
        subst hmeq
        have hns' : noSeekAfterShortReplay ops = true := by
          cases ops with
          | nil => rfl
          | cons op2 ops2 =>
            simp only [noSeekAfterShortReplay, Bool.and_eq_true] at hns
            exact hns.2
        have hstep3 : (⟨ra.data.drop (ra.pos + 16), 16,
            some ((ra.data.drop ra.pos).take 16), true⟩ : SeekableReaderState).read 16 =
            .ok ((ra.data.drop ra.pos).take 16,
              ⟨ra.data.drop (ra.pos + 16), 16, none, false⟩) := by
          have := seekable_read_replay_ge
            (⟨ra.data.drop (ra.pos + 16), 16,
              some ((ra.data.drop ra.pos).take 16), true⟩ : SeekableReaderState)
            ((ra.data.drop ra.pos).take 16) 16 rfl rfl hc1ne (by omega)
          simpa [hc1len] using this
        have hinv1 : cleanSim
            ⟨ra.data.drop (ra.pos + 16), 16, none, false⟩
            ⟨ra.data, ra.pos + 16⟩ :=
          ⟨rfl, rfl, h16, rfl⟩
        have hlen1 : 16 * ops.length ≤
            (⟨ra.data, ra.pos + 16⟩ : RandomAccessState).data.length -
              (⟨ra.data, ra.pos + 16⟩ : RandomAccessState).pos := by
          simp [List.length_cons] at hlen ⊢
          omega
        obtain ⟨outs, hS, hR⟩ := ih _ _ hmb' hns' (Or.inl hinv1) hlen1
        have htake16 : (ra.data.drop (ra.pos + 16 - 16)).take 16 =
            (ra.data.drop ra.pos).take 16 := by
          simp
        refine ⟨(ra.data.drop ra.pos).take 16 ::
          (ra.data.drop ra.pos).take 16 :: outs, ?_, ?_⟩
        · simp [runSeekable, hstep1, hstep2, hstep3, hS]
        · simp [runRandomAccess, ra_read_eq, hraMin, hseekBack, hR, htake16]

/-- C2 (amended): the adapter is faithful to a true random-access source
for every interleaving of `read(16)` units optionally followed by
`seek(-16, SEEK_CUR)` and `read(m)` with `m ≤ 16`, restricted as the
counterexample forces: no unit containing a seek may immediately follow a
unit whose trailing replay read was short (`m < 16`), since such a unit
leaves a pending buffer and the next `read(16)` is then served from it
without being retained as a seek candidate.  Within that class the chunk
sequences agree exactly; and with a pending buffer, a read of fewer
bytes than buffered returns a prefix and retains the remainder as
pending, while a read of at least the buffered length returns the buffer
topped up by a forward read of the shortfall and clears the pending
state. -/
theorem seekable_reader_fidelity_amended :
    (∀ (ops : List AccessOp) (stream : List Nat),
      mBound ops = true → noSeekAfterShortReplay ops = true →
      16 * ops.length ≤ stream.length →
      ∃ outs, runSeekable ops (initSeekableReader stream) = .ok outs ∧
        runRandomAccess ops ⟨stream, 0⟩ = some outs) ∧
    (∀ (st : SeekableReaderState) (b : List Nat) (m : Nat),
      st.saught = true → st.buffer = some b → b ≠ [] → m < b.length →
      st.read m = .ok (b.take m, ⟨st.stream, st.size, some (b.drop m), true⟩)) ∧
    (∀ (st : SeekableReaderState) (b : List Nat) (n : Nat),
      st.saught = true → st.buffer = some b → b ≠ [] → b.length ≤ n →
      st.read n = .ok (b ++ st.stream.take (n - b.length),
        ⟨st.stream.drop (n - b.length), st.size, none, false⟩)) := by
  refine ⟨?_, seekable_read_replay_lt, seekable_read_replay_ge⟩
  intro ops stream hmb hns hlen
  refine runSeekable_matches_random_access ops (initSeekableReader stream)
    ⟨stream, 0⟩ hmb hns (Or.inl ?_) (by simpa using hlen)
  exact ⟨rfl, rfl, Nat.zero_le _, by simp [initSeekableReader]⟩

/-- C2 counterexample: over a 32-byte source, the pattern made of the
unit `read(16); seek; read(5)` followed by the unit
`read(16); seek; read(16)` is a legal interleaving of the claim and
succeeds on a true random-access source, yet the adapter raises
`AssertionError` at the second seek, because that second `read(16)` was
served from the pending replay buffer and was not retained as a seek
candidate — so the returned behaviours differ. -/
theorem seekable_reader_fidelity_counterexample :
    runSeekable [.r16sb 5, .r16sb 16] (initSeekableReader (List.range 32))
      = .error .assertionError ∧
    (runRandomAccess [.r16sb 5, .r16sb 16]
      ⟨List.range 32, 0⟩).isSome = true := by
  constructor
  · rfl
  · rfl

/-- C2 amended witness: a short replay unit followed by a plain read
unit, on 48 bytes of input, plus concrete pending-buffer reads. -/
theorem seekable_reader_fidelity_amended_witness :
    (∃ outs, runSeekable [.r16sb 5, .r16] (initSeekableReader (List.range 48))
        = .ok outs ∧
      runRandomAccess [.r16sb 5, .r16] ⟨List.range 48, 0⟩ = some outs) ∧
    (⟨[9, 9], 16, some [1, 2, 3], true⟩ : SeekableReaderState).read 1
      = .ok ([1], ⟨[9, 9], 16, some [2, 3], true⟩) ∧
    (⟨[9, 9], 16, some [1, 2, 3], true⟩ : SeekableReaderState).read 5
      = .ok ([1, 2, 3, 9, 9], ⟨[], 16, none, false⟩) :=
  ⟨seekable_reader_fidelity_amended.1 [.r16sb 5, .r16] (List.range 48)
      (by decide) (by decide) (by simp),
   seekable_reader_fidelity_amended.2.1 _ [1, 2, 3] 1 rfl rfl (by decide) (by decide),
   seekable_reader_fidelity_amended.2.2 _ [1, 2, 3] 5 rfl rfl (by decide) (by decide)⟩

/-! ### Container format framing lemmas -/

theorem encList_nil (enc : Rec → List Nat) : encList enc [] = [] := rfl

theorem encList_cons (enc : Rec → List Nat) (r : Rec) (rs : List Rec) :
    encList enc (r :: rs) = enc r ++ encList enc rs := rfl

theorem encList_append_singleton (enc : Rec → List Nat) (rs : List Rec) (r : Rec) :
    encList enc (rs ++ [r]) = encList enc rs ++ enc r := by
  induction rs with
  | nil => simp [encList]
  | cons x xs ih =>
    simp only [List.cons_append, encList_cons, ih, List.append_assoc]

theorem encList_ne_nil (enc : Rec → List Nat) (henc : ∀ r, enc r ≠ [])
    (rs : List Rec) (h : rs ≠ []) : encList enc rs ≠ [] := by
  cases rs with
  | nil => exact absurd rfl h
  | cons r t =>
    rw [encList_cons]
    intro hc
    exact henc r (List.append_eq_nil.mp hc).1

theorem decodeN_encList (enc : Rec → List Nat)
    (dec : List Nat → Option (Rec × List Nat))
    (hinv : ∀ r rest, dec (enc r ++ rest) = some (r, rest)) :
    ∀ (rs : List Rec) (rest : List Nat),
      decodeN dec rs.length (encList enc rs ++ rest) = some (rs, rest) := by
  intro rs
  induction rs with
  | nil => intro rest; simp [decodeN, encList]
  | cons r t ih =>
    intro rest
    rw [List.length_cons, encList_cons, List.append_assoc]
    simp only [decodeN, hinv r (encList enc t ++ rest), ih rest]

theorem readBytesField_enc (b rest : List Nat) :
    readBytesField (encBytes b ++ rest) = some (b, rest) := by
  rw [encBytes, List.append_assoc, readBytesField,
    readVarint_encodeVarint b.length (b ++ rest)]
  simp [List.take_left, List.drop_left]

theorem readBlocksF_nil (dec : List Nat → Option (Rec × List Nat))
    (sm : List Nat) (fuel : Nat) (h : 0 < fuel) :
    readBlocksF dec sm fuel [] = some [] := by
  cases fuel with
  | zero => omega
  | succ f => simp [readBlocksF]

/-- Parsing one well-formed block off the front of the stream. -/
theorem readBlocksF_block (dec : List Nat → Option (Rec × List Nat))
    (enc : Rec → List Nat)
    (hinv : ∀ r rest, dec (enc r ++ rest) = some (r, rest))
    (sm : List Nat) (hsm : sm.length = 16)
    (rs : List Rec) (rest : List Nat) (fuel : Nat) :
    readBlocksF dec sm (fuel + 1)
      (blockBytes sm rs.length (encList enc rs) ++ rest) =
    match readBlocksF dec sm fuel rest with
    | none => none
    | some t => some (rs ++ t) := by
  have hne : encodeVarint rs.length ++
      (encodeVarint (encList enc rs).length ++ (encList enc rs ++ (sm ++ rest))) ≠ [] := by
    intro hc
    simp only [List.append_eq_nil] at hc
    exact encodeVarint_ne_nil rs.length hc.1
  rw [readBlocksF]
  simp only [blockBytes, List.append_assoc]
  rw [if_neg hne]
  simp only [readVarint_encodeVarint]
  have hle : (encList enc rs).length ≤ (encList enc rs ++ (sm ++ rest)).length := by
    simp
  rw [if_pos hle]
  have hd1 : decodeN dec rs.length
      ((encList enc rs ++ (sm ++ rest)).take (encList enc rs).length) =
      some (rs, []) := by
    rw [List.take_left]
    have := decodeN_encList enc dec hinv rs []
    simpa using this
  simp only [hd1]
  have hd2 : (encList enc rs ++ (sm ++ rest)).drop (encList enc rs).length =
      sm ++ rest := List.drop_left _ _
  have hd3 : (sm ++ rest).take 16 = sm := by
    rw [← hsm]
    exact List.take_left sm rest
  have hd4 : (sm ++ rest).drop 16 = rest := by
    rw [← hsm]
    exact List.drop_left sm rest
  rw [hd2, hd3, if_pos rfl, hd4]

theorem blockBytes_length_pos (sm : List Nat) (n : Nat) (p : List Nat) :
    0 < (blockBytes sm n p).length := by
  rw [blockBytes]
  cases hev : encodeVarint n with
  | nil => exact absurd hev (encodeVarint_ne_nil n)
  | cons a t => simp

/-- The central writer/reader correspondence: from any mid-session state
whose buffer holds exactly the encodings of the pending records of the
current block (and whose per-block counter counts them), sending the
remaining records and closing appends to the sink a byte suffix that the
block decoding loop reads back as exactly the pending records followed
by the remaining records, in order. -/
theorem runWriter_readBlocks (enc : Rec → List Nat)
    (dec : List Nat → Option (Rec × List Nat))
    (hinv : ∀ r rest, dec (enc r ++ rest) = some (r, rest))
    (henc : ∀ r, enc r ≠ [])
    (sm : List Nat) (hsm : sm.length = 16) :
    ∀ (rs pend : List Rec) (st : WriterState),
      st.schema.isSome = true →
      st.syncMarker = sm →
      st.buf = encList enc pend →
      st.nBlockRecords = pend.length →
      ∃ (stf : WriterState) (d : List Nat),
        runWriter enc st rs = .ok stf ∧
        stf.out = st.out ++ d ∧
        ∀ fuel, d.length < fuel → readBlocksF dec sm fuel d = some (pend ++ rs) := by
  intro rs
  induction rs with
  | nil =>
    intro pend st hsch hmark hbuf hnbr
    obtain ⟨sch, si, smk, cdc, buf, nR, nbr, out⟩ := st
    simp only at hsch hmark hbuf hnbr
    subst hmark hbuf hnbr
    by_cases hp : pend = []
    · subst hp
      refine ⟨_, [], rfl, ?_, ?_⟩
      · simp [writerClose, encList_nil]
      · intro fuel hf
        rw [readBlocksF_nil dec smk fuel (by simpa using hf)]
        simp
    · have hbne : encList enc pend ≠ [] := encList_ne_nil enc henc pend hp
      refine ⟨_, blockBytes smk pend.length (encList enc pend), rfl, ?_, ?_⟩
      · simp [writerClose, hbne]
      · intro fuel hf
        have hbl : 0 < (blockBytes smk pend.length (encList enc pend)).length :=
          blockBytes_length_pos smk pend.length (encList enc pend)
        obtain ⟨f, rfl⟩ : ∃ f, fuel = f + 1 := ⟨fuel - 1, by omega⟩
        have hstep := readBlocksF_block dec enc hinv smk hsm pend [] f
        rw [List.append_nil] at hstep
        rw [hstep, readBlocksF_nil dec smk f (by omega)]
  | cons r rs ih =>
    intro pend st hsch hmark hbuf hnbr
    obtain ⟨sch, si, smk, cdc, buf, nR, nbr, out⟩ := st
    simp only at hsch hmark hbuf hnbr
    subst hmark hbuf hnbr
    obtain ⟨sj, hsj⟩ : ∃ sj, sch = some sj := by
      cases sch with
      | none => simp at hsch
      | some s => exact ⟨s, rfl⟩
    subst hsj
    by_cases hflush : si ≤ (encList enc pend ++ enc r).length
    · -- the buffer reaches the threshold: the block is flushed now
      have hsend : writerSend enc
          ⟨some sj, si, smk, cdc, encList enc pend, nR, pend.length, out⟩ r =
          .ok ⟨some sj, si, smk, cdc, [], nR + 1, 0,
            out ++ blockBytes smk (pend ++ [r]).length (encList enc (pend ++ [r]))⟩ := by
        simp [writerSend, writerSendPre, (by simpa using hflush :
          si ≤ (encList enc pend).length + (enc r).length), encList_append_singleton]
      obtain ⟨stf, d1, hrun, hout, hread⟩ := ih []
        ⟨some sj, si, smk, cdc, [], nR + 1, 0,
          out ++ blockBytes smk (pend ++ [r]).length (encList enc (pend ++ [r]))⟩
        rfl rfl rfl rfl
      refine ⟨stf,
        blockBytes smk (pend ++ [r]).length (encList enc (pend ++ [r])) ++ d1, ?_, ?_, ?_⟩
      · rw [runWriter, hsend]
        exact hrun
      · rw [hout]
        simp [List.append_assoc]
      · intro fuel hf
        have hbl : 0 < (blockBytes smk (pend ++ [r]).length
            (encList enc (pend ++ [r]))).length :=
          blockBytes_length_pos smk _ _
        obtain ⟨f, rfl⟩ : ∃ f, fuel = f + 1 := ⟨fuel - 1, by omega⟩
        rw [readBlocksF_block dec enc hinv smk hsm (pend ++ [r]) d1 f]
        have hfd : d1.length < f := by
          simp [List.length_append] at hf hbl
          omega
        rw [hread f hfd]
        simp
    · -- below the threshold: the record is only appended to the buffer
      have hsend : writerSend enc
          ⟨some sj, si, smk, cdc, encList enc pend, nR, pend.length, out⟩ r =
          .ok ⟨some sj, si, smk, cdc, encList enc (pend ++ [r]), nR + 1,
            (pend ++ [r]).length, out⟩ := by
        simp [writerSend, writerSendPre, (by simpa using hflush :
          ¬ si ≤ (encList enc pend).length + (enc r).length), encList_append_singleton]
      obtain ⟨stf, d1, hrun, hout, hread⟩ := ih (pend ++ [r])
        ⟨some sj, si, smk, cdc, encList enc (pend ++ [r]), nR + 1,
          (pend ++ [r]).length, out⟩
        rfl rfl rfl rfl
      refine ⟨stf, d1, ?_, hout, ?_⟩
      · rw [runWriter, hsend]
        exact hrun
      · intro fuel hf
        rw [hread fuel hf]
        simp

/-! ### Writer state machine (claims C3, C4, C5) -/

/-- C3 evidence: an `AvroWriter` opened without a schema does not infer
one from the first written record.  Priming emits no header; the first
`write` then executes `self._schema = None` (the inference is a bare
TODO), emits a header carrying the JSON `null` as schema, and the
`write_data` call with a `None` schema fails — the schema is never
known, contradicting the claim. -/
theorem writer_first_record_schema_not_inferred :
    ((writerSendPre (writerPrime (initWriter none none
        (some (List.replicate 16 0)) none (List.replicate 16 0)))).schema = none) ∧
    ((writerSendPre (writerPrime (initWriter none none
        (some (List.replicate 16 0)) none (List.replicate 16 0)))).out =
      encodeHeader noneSchemaJson nullCodecBytes (List.replicate 16 0)) ∧
    (writerSend (fun n : Nat => [n]) (writerPrime (initWriter none none
        (some (List.replicate 16 0)) none (List.replicate 16 0))) 5
      = .error (.keyError "None")) :=
  ⟨rfl, rfl, rfl⟩

/-- C4: the default flush threshold is `1000 * SYNC_SIZE = 16000` bytes,
and whenever a `write` brings the buffer to at least the threshold the
block is flushed immediately: record count, null-codec payload framing
and sync marker are appended to the sink, and the buffer and the
per-block record counter are reset. -/
theorem writer_default_threshold_and_flush (enc : Rec → List Nat)
    (st : WriterState) (r : Rec) (sj : List Nat)
    (hschema : st.schema = some sj)
    (hflush : st.syncInterval ≤ (st.buf ++ enc r).length) :
    (∀ s m c e, (initWriter s none m c e).syncInterval = 1000 * SYNC_SIZE) ∧
    1000 * SYNC_SIZE = 16000 ∧
    writerSend enc st r = .ok { st with
      nRecords := st.nRecords + 1,
      buf := [],
      nBlockRecords := 0,
      out := st.out ++
        blockBytes st.syncMarker (st.nBlockRecords + 1) (st.buf ++ enc r) } := by
  refine ⟨fun s m c e => rfl, rfl, ?_⟩
  obtain ⟨sch, si, smk, cdc, buf, nR, nbr, out⟩ := st
  simp only at hschema hflush
  subst hschema
  simp [writerSend, writerSendPre,
    (by simpa using hflush : si ≤ buf.length + (enc r).length)]

/-- C4 witness: the default threshold on a fresh writer, and a concrete
flushing write at threshold two. -/
theorem writer_default_threshold_and_flush_witness :
    (initWriter none none none none []).syncInterval = 1000 * SYNC_SIZE ∧
    writerSend (fun n : Nat => [n])
      ⟨some [1], 2, List.replicate 16 7, nullCodecBytes, [3], 4, 1, [9]⟩ 5
      = .ok ⟨some [1], 2, List.replicate 16 7, nullCodecBytes, [], 5, 0,
          [9] ++ blockBytes (List.replicate 16 7) 2 [3, 5]⟩ :=
  ⟨(writer_default_threshold_and_flush (fun n : Nat => [n])
      ⟨some [1], 2, List.replicate 16 7, nullCodecBytes, [3], 4, 1, [9]⟩ 5 [1]
      rfl (by decide)).1 none none none [],
   (writer_default_threshold_and_flush (fun n : Nat => [n])
      ⟨some [1], 2, List.replicate 16 7, nullCodecBytes, [3], 4, 1, [9]⟩ 5 [1]
      rfl (by decide)).2.2⟩

/-- C5: reaching close with a nonempty block buffer flushes it as one
final block: the bytes appended by `writerClose` are nonempty exactly
when records are pending, and the block decoding loop reads them back as
exactly the pending records — no buffered-but-unflushed record is
dropped. -/
theorem close_flushes_pending_block (enc : Rec → List Nat)
    (dec : List Nat → Option (Rec × List Nat))
    (hinv : ∀ r rest, dec (enc r ++ rest) = some (r, rest))
    (henc : ∀ r, enc r ≠ [])
    (sm : List Nat) (hsm : sm.length = 16)
    (pend : List Rec) (st : WriterState)
    (hsch : st.schema.isSome = true)
    (hmark : st.syncMarker = sm)
    (hbuf : st.buf = encList enc pend)
    (hnbr : st.nBlockRecords = pend.length) :
    ∃ d, (writerClose st).out = st.out ++ d ∧
      (pend ≠ [] → d ≠ []) ∧
      (∀ fuel, d.length < fuel → readBlocksF dec sm fuel d = some pend) := by
  obtain ⟨stf, d, hrun, hout, hread⟩ :=
    runWriter_readBlocks enc dec hinv henc sm hsm [] pend st hsch hmark hbuf hnbr
  have hstf : writerClose st = stf := by
    have h0 : runWriter enc st [] = .ok (writerClose st) := rfl
    rw [h0] at hrun
    exact Except.ok.inj hrun
  refine ⟨d, by rw [hstf]; exact hout, ?_, ?_⟩
  · intro hp hd
    have h1 := hread 1 (by rw [hd]; simp)
    rw [hd, readBlocksF_nil dec sm 1 (by omega)] at h1
    have : pend = [] := by simpa using h1.symm
    exact hp this
  · intro fuel hf
    have := hread fuel hf
    simpa using this

/-- C5 witness: closing with one pending record appends one decodable
final block. -/
theorem close_flushes_pending_block_witness :
    ∃ d, (writerClose ⟨some [9], 100, List.replicate 16 7, nullCodecBytes,
          [5], 1, 1, [42]⟩).out = [42] ++ d ∧
      (([5] : List Nat) ≠ [] → d ≠ []) ∧
      (∀ fuel, d.length < fuel →
        readBlocksF (fun bs => match bs with
          | [] => none
          | b :: t => some (b, t)) (List.replicate 16 7) fuel d = some [5]) :=
  close_flushes_pending_block (fun n : Nat => [n]) _ (fun _ _ => rfl)
    (fun r => by simp) (List.replicate 16 7) (by simp) [5]
    ⟨some [9], 100, List.replicate 16 7, nullCodecBytes, [5], 1, 1, [42]⟩
    rfl rfl rfl rfl

/-! ### Round trip (claim C1) and the multi-part reader (claim C8) -/

/-- C1 (amended): for every record count N in the claimed set and every
record list of that length over a schema whose record encodings are
nonempty (witnessed by any encoder/decoder pair satisfying the
prefix-decoding contract of the record codec), writing the records with
a supplied schema, any flush threshold and a sixteen-byte sync marker,
and reading the container back, returns the schema and exactly the
original records in order.  The nonemptiness restriction is forced by
the counterexample: records of a zero-field schema encode to zero bytes,
never raise the buffer, and are silently dropped at close. -/
theorem avro_round_trip_amended (enc : Rec → List Nat)
    (dec : List Nat → Option (Rec × List Nat))
    (hinv : ∀ r rest, dec (enc r ++ rest) = some (r, rest))
    (henc : ∀ r, enc r ≠ [])
    (schemaJson marker : List Nat) (interval : Nat) (records : List Rec)
    (hm : marker.length = 16)
    (_hN : records.length = 0 ∨ records.length = 1 ∨ records.length = 999 ∨
      records.length = 1000 ∨ records.length = 2001) :
    ∃ out, writeContainer enc schemaJson interval marker records = .ok out ∧
      readContainer dec out = some (schemaJson, records) := by
  have hst0 : writerPrime (initWriter (some schemaJson) (some interval)
      (some marker) none marker) =
      ⟨some schemaJson, if interval = 0 then 1000 * SYNC_SIZE else interval,
        marker, nullCodecBytes, [], 0, 0,
        encodeHeader schemaJson nullCodecBytes marker⟩ := by
    simp [writerPrime, initWriter]
  obtain ⟨stf, d, hrun, hout, hread⟩ :=
    runWriter_readBlocks enc dec hinv henc marker hm records []
      ⟨some schemaJson, if interval = 0 then 1000 * SYNC_SIZE else interval,
        marker, nullCodecBytes, [], 0, 0,
        encodeHeader schemaJson nullCodecBytes marker⟩
      rfl rfl rfl rfl
  have hout' : stf.out = encodeHeader schemaJson nullCodecBytes marker ++ d := hout
  have hwc : writeContainer enc schemaJson interval marker records = .ok stf.out := by
    rw [writeContainer, hst0, hrun]
    rfl
  have hif : (encodeHeader schemaJson nullCodecBytes marker ++ d).take 4 = MAGIC := by
    rw [encodeHeader]
    simp only [List.append_assoc]
    exact List.take_left' rfl
  have hdrop4 : (encodeHeader schemaJson nullCodecBytes marker ++ d).drop 4 =
      encBytes nullCodecBytes ++ (encBytes schemaJson ++ (marker ++ d)) := by
    rw [encodeHeader]
    simp only [List.append_assoc]
    exact List.drop_left' rfl
  have hrbf1 : readBytesField
      (encBytes nullCodecBytes ++ (encBytes schemaJson ++ (marker ++ d))) =
      some (nullCodecBytes, encBytes schemaJson ++ (marker ++ d)) :=
    readBytesField_enc _ _
  have hrbf2 : readBytesField (encBytes schemaJson ++ (marker ++ d)) =
      some (schemaJson, marker ++ d) := readBytesField_enc _ _
  have h16 : 16 ≤ (marker ++ d).length := by
    simp [hm]
  have htk : (marker ++ d).take 16 = marker := List.take_left' hm
  have hdp : (marker ++ d).drop 16 = d := List.drop_left' hm
  refine ⟨stf.out, hwc, ?_⟩
  rw [hout']
  rw [readContainer, if_pos hif, hdrop4]
  simp only [hrbf1, hrbf2, htk, hdp, h16, if_true, eq_self_iff_true]
  rw [hread (d.length + 1) (by omega)]
  simp

/-- C1 amended witness: one record, threshold three, concrete
single-byte record codec. -/
theorem avro_round_trip_amended_witness :
    ∃ out, writeContainer (fun n : Nat => [n]) [1, 2] 3
        (List.replicate 16 7) [5] = .ok out ∧
      readContainer (fun bs => match bs with
        | [] => none
        | b :: t => some (b, t)) out = some ([1, 2], [5]) :=
  avro_round_trip_amended (fun n : Nat => [n]) _ (fun _ _ => rfl)
    (fun r => by simp) [1, 2] (List.replicate 16 7) 3 [5] (by simp)
    (Or.inr (Or.inl rfl))

/-- C1 counterexample: with the legal zero-field record schema every
record encodes to zero bytes — the decoder contract of the record codec
still holds (first conjunct) — yet writing one record produces only the
header, and reading it back yields zero records, not one: the round
trip fails at N = 1. -/
theorem avro_round_trip_counterexample :
    (∀ (r : Unit) (rest : List Nat),
      (fun bs => some (((), bs) : Unit × List Nat))
        ((fun _ : Unit => []) r ++ rest) = some (r, rest)) ∧
    writeContainer (fun _ : Unit => []) [1, 2] 3 (List.replicate 16 7) [()]
      = .ok (encodeHeader [1, 2] nullCodecBytes (List.replicate 16 7)) ∧
    readContainer (fun bs => some (((), bs) : Unit × List Nat))
      (encodeHeader [1, 2] nullCodecBytes (List.replicate 16 7))
      = some ([1, 2], ([] : List Unit)) ∧
    ([] : List Unit) ≠ [()] := by
  have hif : (encodeHeader [1, 2] nullCodecBytes (List.replicate 16 7)).take 4
      = MAGIC := by
    rw [encodeHeader]
    simp only [List.append_assoc]
    exact List.take_left' rfl
  have hdrop4 : (encodeHeader [1, 2] nullCodecBytes (List.replicate 16 7)).drop 4 =
      encBytes nullCodecBytes ++ (encBytes [1, 2] ++ List.replicate 16 7) := by
    rw [encodeHeader]
    simp only [List.append_assoc]
    exact List.drop_left' rfl
  have h1 := readBytesField_enc nullCodecBytes
    (encBytes [1, 2] ++ List.replicate 16 7)
  have h2 := readBytesField_enc [1, 2] (List.replicate 16 7 : List Nat)
  have h16 : 16 ≤ (List.replicate 16 7 : List Nat).length := by simp
  have htk : (List.replicate 16 7 : List Nat).take 16 = List.replicate 16 7 :=
    List.take_of_length_le (by simp)
  have hdp : (List.replicate 16 7 : List Nat).drop 16 = [] :=
    List.drop_eq_nil_of_le (by simp)
  refine ⟨fun _ _ => rfl, rfl, ?_, by simp⟩
  rw [readContainer, if_pos hif, hdrop4]
  simp only [h1, h2, h16, if_true]
  rw [htk, hdp, readBlocksF_nil _ _ _ (by simp)]

/-- Once the schema flag is set, the generator yields only records,
every record of each part in order. -/
theorem readerGen_schemaSet (parts : List (AvroPart Rec)) :
    readerGen parts true = ((parts.map (fun p => p.records)).flatten).map Sum.inr := by
  induction parts with
  | nil => rfl
  | cons p ps ih =>
    simp [readerGen, ih]

/-- C8: entering a reader over part-files p0, ..., pk in the supplied
order exposes the schema decoded from p0 and a record stream that yields
all records of p0, then all of p1, and so on — the schemas of the
subsequent part-files never reach the caller. -/
theorem reader_multipart_order_and_schema (parts : List (AvroPart Rec))
    (h : parts ≠ []) :
    avroReaderEnter parts = some ((parts.head h).schema,
      ((parts.map (fun p => p.records)).flatten).map Sum.inr) := by
  cases parts with
  | nil => exact absurd rfl h
  | cons p ps =>
    simp [avroReaderEnter, readerGen, readerGen_schemaSet]

/-- C8 witness: two parts with different header schemas; the exposed
schema is the first one and the records come in part order. -/
theorem reader_multipart_order_and_schema_witness :
    avroReaderEnter [(⟨[1], [10, 11]⟩ : AvroPart Nat), ⟨[2], [20]⟩]
      = some ([1], [Sum.inr 10, Sum.inr 11, Sum.inr 20]) :=
  reader_multipart_order_and_schema [⟨[1], [10, 11]⟩, ⟨[2], [20]⟩] (by simp)
